import Mathlib

/-!
Shallow embedding of the swing-trading backtester (`main.py`).

The strategy logic (signal detection with entry delay, the stop-loss /
take-profit bracket computation and sanity guard, and the forced-exit
conditions) is translated from `SwingTradingStrategy.next`.  The broker
mechanics that the source delegates to the backtesting framework
(intrabar stop-loss / take-profit fills, commission on entry and exit,
the end-of-series force close, the return evaluator and the grid-search
optimizer) are modelled from the specification, as marked on each
definition.

Prices, indicator values and cash are rationals; bar indices are
naturals.  `len(self.data)` at the bar of index `i` is `i + 1`, so the
Python differences `len(self.data) - self.buy_signal_day` and
`len(self.data) - self.entry_day` coincide with differences of bar
indices; the embedding records bar indices directly.
-/

/-- One bar of the market series: OHLCV columns plus the precomputed
indicator columns consumed by the strategy. -/
structure Bar where
  openPrice : ℚ
  high : ℚ
  low : ℚ
  close : ℚ
  volume : ℕ
  rsi : ℚ
  macd : ℚ
  macdSignal : ℚ
  macdHist : ℚ
  cci : ℚ
deriving DecidableEq

/-- The tunable parameters of `SwingTradingStrategy` (class attributes in
the source, one combination per optimizer trial). -/
structure StrategyParams where
  hold_period : ℕ
  RSI_thresh : ℚ
  CCI_thresh : ℚ
  macd_hist_thresh : ℚ
  tp_percent : ℚ
  entry_delay : ℕ
deriving DecidableEq

/-- Default parameter values from the class body of `SwingTradingStrategy`. -/
def defaultParams : StrategyParams :=
  { hold_period := 16
    RSI_thresh := 30
    CCI_thresh := -100
    macd_hist_thresh := 0
    tp_percent := 30 / 100
    entry_delay := 5 }

/-- Reason a trade was closed (spec data model for `Trade`). -/
inductive ExitReason where
  | StopLoss
  | TakeProfit
  | HoldPeriodExpired
  | MacdReversal
deriving DecidableEq

/-- The data of an open position: entry bar index, entry price and the
bracket levels passed to `self.buy(sl=..., tp=...)`. -/
structure PosInfo where
  entryBarIndex : ℕ
  entryPrice : ℚ
  stopLoss : ℚ
  takeProfit : ℚ
deriving DecidableEq

/-- A closed trade as recorded in the trade log.  `realizedPnL` is the
price delta on a one-unit notional minus the commission charged on the
entry value and on the exit value (spec: commission is applied
symmetrically on entry and exit). -/
structure Trade where
  entryIndex : ℕ
  entryPrice : ℚ
  exitIndex : ℕ
  exitPrice : ℚ
  reason : ExitReason
  realizedPnL : ℚ
deriving DecidableEq

/-- Mutable state of one simulation run: the strategy's
`self.buy_signal_day` (as a bar index), the open position if any
(subsuming `self.entry_day`), the running cash balance, and the trade
log accumulated so far. -/
structure SimState where
  buy_signal_day : Option ℕ
  pos : Option PosInfo
  cash : ℚ
  log : List Trade
deriving DecidableEq

/-- Modelled from the spec: closing the open position at bar `i` at the
given price.  Commission was already deducted on the entry value when the
position was opened, so the cash update here charges commission on the
exit value only, while the recorded `realizedPnL` carries both charges. -/
def closePosition (comm : ℚ) (i : ℕ) (price : ℚ) (reason : ExitReason)
    (info : PosInfo) (s : SimState) : SimState :=
  { buy_signal_day := s.buy_signal_day
    pos := none
    cash := s.cash + (price - info.entryPrice) - comm * price
    log := s.log ++
      [{ entryIndex := info.entryBarIndex
         entryPrice := info.entryPrice
         exitIndex := i
         exitPrice := price
         reason := reason
         realizedPnL :=
           (price - info.entryPrice) - comm * info.entryPrice - comm * price }] }

/-- One call of `SwingTradingStrategy.next` at the bar of index `i`,
together with the broker actions of that bar.  The flat branch (signal
recording, entry delay, bracket computation and sanity guard) is a direct
translation of lines 98-114 of `main.py`; the forced-exit condition is
line 117.  The intrabar stop-loss / take-profit fills, the execution of
the entry at `Close[i]` and of forced exits at `Close[i]`, and the
commission charge are modelled from the spec (the source delegates them
to the backtesting framework). -/
def SwingTradingStrategy.next (p : StrategyParams) (comm : ℚ) (i : ℕ)
    (b : Bar) (s : SimState) : SimState :=
  match s.pos with
  | none =>
      let sig : Option ℕ :=
        if b.rsi < p.RSI_thresh ∧ b.cci < p.CCI_thresh then
          match s.buy_signal_day with
          | none => some i
          | some d => some d
        else s.buy_signal_day
      let s1 : SimState := { s with buy_signal_day := sig }
      match sig with
      | none => s1
      | some d =>
          if p.entry_delay ≤ i - d then
            let current_price := b.close
            let stop_loss := current_price * (9 / 10)
            let take_profit := current_price * (p.tp_percent + 1)
            if stop_loss < current_price ∧ current_price < take_profit then
              { buy_signal_day := none
                pos := some
                  { entryBarIndex := i
                    entryPrice := current_price
                    stopLoss := stop_loss
                    takeProfit := take_profit }
                cash := s1.cash - comm * current_price
                log := s1.log }
            else s1
          else s1
  | some info =>
      if b.low ≤ info.stopLoss then
        closePosition comm i info.stopLoss ExitReason.StopLoss info s
      else if info.takeProfit ≤ b.high then
        closePosition comm i info.takeProfit ExitReason.TakeProfit info s
      else if p.hold_period ≤ i - info.entryBarIndex ∨ b.macdHist < p.macd_hist_thresh then
        closePosition comm i b.close
          (if p.hold_period ≤ i - info.entryBarIndex then ExitReason.HoldPeriodExpired
           else ExitReason.MacdReversal) info s
      else s

/-- Replay the bars from index `i` onwards, threading the state. -/
def runBars (p : StrategyParams) (comm : ℚ) : ℕ → List Bar → SimState → SimState
  | _, [], s => s
  | i, b :: bs, s => runBars p comm (i + 1) bs (SwingTradingStrategy.next p comm i b s)

/-- Modelled from the spec: at series end a still-open position is
force-closed at the last bar's close, treated as `HoldPeriodExpired`, to
avoid an unterminated position. -/
def finalize (comm : ℚ) (bars : List Bar) (s : SimState) : SimState :=
  match s.pos with
  | none => s
  | some info =>
      match bars.getLast? with
      | none => s
      | some b => closePosition comm (bars.length - 1) b.close ExitReason.HoldPeriodExpired info s

/-- Initial state of a run: flat, no recorded signal, the starting cash,
an empty trade log. -/
def initState (startingCash : ℚ) : SimState :=
  { buy_signal_day := none, pos := none, cash := startingCash, log := [] }

/-- Result of one simulation trial: the parameter set used, the ordered
trade log and the final equity (spec data model for `RunResult`). -/
structure RunResult where
  params : StrategyParams
  tradeLog : List Trade
  finalEquity : ℚ
deriving DecidableEq

/-- One simulation run: replay every bar from index 0, then force-close
at series end. -/
def run (p : StrategyParams) (startingCash comm : ℚ) (bars : List Bar) : RunResult :=
  let s := finalize comm bars (runBars p comm 0 bars (initState startingCash))
  { params := p, tradeLog := s.log, finalEquity := s.cash }

/-- Sum of the realized P&L over a trade log. -/
def sumPnL (log : List Trade) : ℚ :=
  (log.map Trade.realizedPnL).sum

/-- Modelled from the spec: the PerformanceEvaluator's objective, total
percentage return. -/
def score (startingCash : ℚ) (r : RunResult) : ℚ :=
  (r.finalEquity - startingCash) / startingCash * 100

/-- Modelled from the spec: keep the strictly better-scoring result;
first seen wins on ties. -/
def pickBetter (startingCash : ℚ) (best cand : RunResult) : RunResult :=
  if score startingCash best < score startingCash cand then cand else best

/-- Modelled from the spec: exhaustive optimizer mode — evaluate every
candidate in the declared order and retain the best-scoring result. -/
def searchExhaustive (startingCash comm : ℚ) (bars : List Bar)
    (cands : List StrategyParams) : Option RunResult :=
  match cands with
  | [] => none
  | c :: cs =>
      some ((cs.map (fun q => run q startingCash comm bars)).foldl
        (pickBetter startingCash) (run c startingCash comm bars))

/-- Modelled from the spec: the optimizer's search under a try budget.
When the candidate space fits in `maxTries` the search is exhaustive;
the sampling mode used beyond the budget has an unspecified seed (an
open question in the spec) and is left unmodelled. -/
def search (startingCash comm : ℚ) (bars : List Bar)
    (cands : List StrategyParams) (maxTries : ℕ) : Option RunResult :=
  if cands.length ≤ maxTries then searchExhaustive startingCash comm bars cands
  else none

/-- Modelled from the spec: the Cartesian product of the per-parameter
candidate ranges, in lexicographic order over the declared parameter
order. -/
def productParams (hs : List ℕ) (rs cs ms tps : List ℚ) (ds : List ℕ) :
    List StrategyParams :=
  hs.flatMap fun h =>
    rs.flatMap fun r =>
      cs.flatMap fun c =>
        ms.flatMap fun m =>
          tps.flatMap fun t =>
            ds.map fun d =>
              { hold_period := h
                RSI_thresh := r
                CCI_thresh := c
                macd_hist_thresh := m
                tp_percent := t
                entry_delay := d }

/-- Chronological invariant of a run state at position `i` of the replay:
the log is chained (each trade exits strictly before the next one
enters), every logged trade exits strictly after it entered, all logged
exits lie before `i`, and an open position entered before `i`, after
every logged exit. -/
def ChainInv (i : ℕ) (s : SimState) : Prop :=
  s.log.Pairwise (fun a b => a.exitIndex < b.entryIndex) ∧
  (∀ t ∈ s.log, t.entryIndex < t.exitIndex) ∧
  (∀ t ∈ s.log, t.exitIndex < i) ∧
  (∀ info, s.pos = some info →
    info.entryBarIndex < i ∧ ∀ t ∈ s.log, t.exitIndex < info.entryBarIndex)

/-- Hold-period invariant at position `i` of the replay: every logged
trade was held at most `hold` bars, and an open position has been held
less than `hold` bars when bar `i` is reached. -/
def GapInv (hold : ℕ) (i : ℕ) (s : SimState) : Prop :=
  (∀ t ∈ s.log, t.exitIndex - t.entryIndex ≤ hold) ∧
  (∀ info, s.pos = some info →
    info.entryBarIndex < i ∧ i ≤ info.entryBarIndex + hold)

/-- Cash-accounting invariant: the running cash equals the starting cash
plus the realized P&L of the closed trades, less the entry commission
already charged for a still-open position. -/
def CashInv (startingCash comm : ℚ) (s : SimState) : Prop :=
  s.cash = startingCash + sumPnL s.log -
    (match s.pos with
     | some info => comm * info.entryPrice
     | none => 0)

/-- A qualifying bar: RSI and CCI below the default thresholds, flat
unit prices. -/
def wBar : Bar :=
  { openPrice := 1, high := 1, low := 1, close := 1, volume := 0,
    rsi := 20, macd := 0, macdSignal := 0, macdHist := 0, cci := -150 }

/-- A non-qualifying bar: RSI above the default threshold. -/
def wQuietBar : Bar :=
  { openPrice := 1, high := 1, low := 1, close := 1, volume := 0,
    rsi := 50, macd := 0, macdSignal := 0, macdHist := 0, cci := 0 }

/-- A bar with a negative close, as a logarithmic data transform can
produce for prices below 1. -/
def wNegBar : Bar :=
  { openPrice := -2, high := -2, low := -2, close := -2, volume := 0,
    rsi := 20, macd := 0, macdSignal := 0, macdHist := 0, cci := -150 }

/-- Parameters with a zero entry delay, otherwise close to the defaults. -/
def cexParams : StrategyParams :=
  { hold_period := 5, RSI_thresh := 30, CCI_thresh := -100,
    macd_hist_thresh := 0, tp_percent := 3 / 10, entry_delay := 0 }

/-- A flat state that has already recorded a buy signal at bar 0. -/
def awaitState : SimState :=
  { buy_signal_day := some 0, pos := none, cash := 10000, log := [] }

/-- The position data the strategy computes when entering at bar 5 on
`wBar`. -/
def wOpenInfo : PosInfo :=
  { entryBarIndex := 5, entryPrice := 1, stopLoss := 9 / 10, takeProfit := 13 / 10 }

/-- A position entered at bar 0 at price 100 with the brackets the
strategy computes for it. -/
def oInfo : PosInfo :=
  { entryBarIndex := 0, entryPrice := 100, stopLoss := 90, takeProfit := 130 }

/-- A state holding the position `oInfo`. -/
def openState : SimState :=
  { buy_signal_day := none, pos := some oInfo, cash := 10000, log := [] }

/-- A bar that neither touches the brackets of `openState` nor shows a
negative MACD histogram. -/
def wHoldBar : Bar :=
  { openPrice := 100, high := 100, low := 100, close := 100, volume := 0,
    rsi := 50, macd := 0, macdSignal := 0, macdHist := 1, cci := 0 }

theorem next_flat_cases (p : StrategyParams) (comm : ℚ) (i : ℕ) (b : Bar)
    (s : SimState) (hpos : s.pos = none) :
    (∃ sig, SwingTradingStrategy.next p comm i b s = { s with buy_signal_day := sig }) ∨
    SwingTradingStrategy.next p comm i b s =
      { buy_signal_day := none
        pos := some { entryBarIndex := i, entryPrice := b.close,
                      stopLoss := b.close * (9 / 10),
                      takeProfit := b.close * (p.tp_percent + 1) }
        cash := s.cash - comm * b.close
        log := s.log } := by
  unfold SwingTradingStrategy.next
  rw [hpos]
  by_cases hq : b.rsi < p.RSI_thresh ∧ b.cci < p.CCI_thresh
  · rw [if_pos hq]
    cases hb : s.buy_signal_day with
    | none =>
        dsimp only
        by_cases hdel : p.entry_delay ≤ i - i
        · rw [if_pos hdel]
          by_cases hg : b.close * (9 / 10) < b.close ∧ b.close < b.close * (p.tp_percent + 1)
          · rw [if_pos hg]; exact Or.inr rfl
          · rw [if_neg hg]; exact Or.inl ⟨some i, rfl⟩
        · rw [if_neg hdel]; exact Or.inl ⟨some i, rfl⟩
    | some d =>
        dsimp only
        by_cases hdel : p.entry_delay ≤ i - d
        · rw [if_pos hdel]
          by_cases hg : b.close * (9 / 10) < b.close ∧ b.close < b.close * (p.tp_percent + 1)
          · rw [if_pos hg]; exact Or.inr rfl
          · rw [if_neg hg]; exact Or.inl ⟨some d, rfl⟩
        · rw [if_neg hdel]; exact Or.inl ⟨some d, rfl⟩
  · rw [if_neg hq]
    cases hb : s.buy_signal_day with
    | none => exact Or.inl ⟨none, rfl⟩
    | some d =>
        dsimp only
        by_cases hdel : p.entry_delay ≤ i - d
        · rw [if_pos hdel]
          by_cases hg : b.close * (9 / 10) < b.close ∧ b.close < b.close * (p.tp_percent + 1)
          · rw [if_pos hg]; exact Or.inr rfl
          · rw [if_neg hg]; exact Or.inl ⟨some d, rfl⟩
        · rw [if_neg hdel]; exact Or.inl ⟨some d, rfl⟩

theorem next_open_cases (p : StrategyParams) (comm : ℚ) (i : ℕ) (b : Bar)
    (s : SimState) (info : PosInfo) (hpos : s.pos = some info) :
    (∃ price reason,
      SwingTradingStrategy.next p comm i b s = closePosition comm i price reason info s) ∨
    (SwingTradingStrategy.next p comm i b s = s ∧
      ¬(p.hold_period ≤ i - info.entryBarIndex ∨ b.macdHist < p.macd_hist_thresh)) := by
  unfold SwingTradingStrategy.next
  rw [hpos]
  dsimp only
  by_cases hsl : b.low ≤ info.stopLoss
  · rw [if_pos hsl]; exact Or.inl ⟨_, _, rfl⟩
  · rw [if_neg hsl]
    by_cases htp : info.takeProfit ≤ b.high
    · rw [if_pos htp]; exact Or.inl ⟨_, _, rfl⟩
    · rw [if_neg htp]
      by_cases hfe : p.hold_period ≤ i - info.entryBarIndex ∨ b.macdHist < p.macd_hist_thresh
      · rw [if_pos hfe]; exact Or.inl ⟨_, _, rfl⟩
      · rw [if_neg hfe]; exact Or.inr ⟨rfl, hfe⟩

theorem runBars_preserve (p : StrategyParams) (comm : ℚ) (P : ℕ → SimState → Prop)
    (bars : List Bar)
    (hstep : ∀ j b s', b ∈ bars → P j s' →
      P (j + 1) (SwingTradingStrategy.next p comm j b s')) :
    ∀ (i : ℕ) (s : SimState), P i s → P (i + bars.length) (runBars p comm i bars s) := by
  induction bars with
  | nil => intro i s h; simpa [runBars] using h
  | cons b bs ih =>
      intro i s h
      have h1 : P (i + 1) (SwingTradingStrategy.next p comm i b s) :=
        hstep i b s (by simp) h
      have h2 := ih (fun j b' s' hb => hstep j b' s' (by simp [hb])) (i + 1) _ h1
      have hlen : (i + 1) + bs.length = i + (b :: bs).length := by
        simp; omega
      rw [← hlen]
      simpa [runBars] using h2

theorem chainInv_init (cash : ℚ) : ChainInv 0 (initState cash) := by
  refine ⟨List.Pairwise.nil, ?_, ?_, ?_⟩ <;> simp [initState]

theorem next_chainInv (p : StrategyParams) (comm : ℚ) (i : ℕ) (b : Bar)
    (s : SimState) (h : ChainInv i s) :
    ChainInv (i + 1) (SwingTradingStrategy.next p comm i b s) := by
  obtain ⟨h1, h2, h3, h4⟩ := h
  cases hpos : s.pos with
  | none =>
      rcases next_flat_cases p comm i b s hpos with ⟨sig, heq⟩ | heq
      · rw [heq]
        refine ⟨h1, h2, fun t ht => Nat.lt_succ_of_lt (h3 t ht), ?_⟩
        intro info hinfo
        dsimp only at hinfo
        rw [hpos] at hinfo
        cases hinfo
      · rw [heq]
        refine ⟨h1, h2, fun t ht => Nat.lt_succ_of_lt (h3 t ht), ?_⟩
        intro info hinfo
        dsimp only at hinfo
        rw [Option.some.injEq] at hinfo
        subst hinfo
        exact ⟨Nat.lt_succ_self i, fun t ht => h3 t ht⟩
  | some info =>
      rcases next_open_cases p comm i b s info hpos with ⟨price, reason, heq⟩ | ⟨heq, _⟩
      · rw [heq]
        obtain ⟨hei, hex⟩ := h4 info hpos
        unfold closePosition
        refine ⟨?_, ?_, ?_, ?_⟩
        · rw [List.pairwise_append]
          refine ⟨h1, List.pairwise_singleton _ _, ?_⟩
          intro a ha t ht
          rw [List.mem_singleton] at ht
          subst ht
          exact hex a ha
        · intro t ht
          rw [List.mem_append, List.mem_singleton] at ht
          rcases ht with ht | ht
          · exact h2 t ht
          · subst ht; exact hei
        · intro t ht
          rw [List.mem_append, List.mem_singleton] at ht
          rcases ht with ht | ht
          · exact Nat.lt_succ_of_lt (h3 t ht)
          · subst ht; exact Nat.lt_succ_self i
        · intro info' hinfo'
          cases hinfo'
      · rw [heq]
        refine ⟨h1, h2, fun t ht => Nat.lt_succ_of_lt (h3 t ht), ?_⟩
        intro info' hinfo'
        obtain ⟨hei, hex⟩ := h4 info' hinfo'
        exact ⟨Nat.lt_succ_of_lt hei, hex⟩

theorem finalize_chain (comm : ℚ) (bars : List Bar) (s : SimState)
    (h : ChainInv bars.length s) :
    (finalize comm bars s).log.Pairwise (fun a b => a.exitIndex < b.entryIndex) ∧
    ∀ t ∈ (finalize comm bars s).log,
      t.entryIndex ≤ t.exitIndex ∧
      (t.exitIndex = t.entryIndex → t.exitIndex = bars.length - 1) := by
  obtain ⟨h1, h2, h3, h4⟩ := h
  unfold finalize
  cases hpos : s.pos with
  | none =>
      dsimp only
      refine ⟨h1, fun t ht => ⟨le_of_lt (h2 t ht), fun he => ?_⟩⟩
      exact absurd he (by have := h2 t ht; omega)
  | some info =>
      obtain ⟨hei, hex⟩ := h4 info hpos
      dsimp only
      cases hlast : bars.getLast? with
      | none =>
          have hnil : bars = [] := by
            cases bars with
            | nil => rfl
            | cons x xs => simp [List.getLast?] at hlast
          rw [hnil] at hei
          simp at hei
      | some blast =>
          unfold closePosition
          refine ⟨?_, ?_⟩
          · rw [List.pairwise_append]
            refine ⟨h1, List.pairwise_singleton _ _, ?_⟩
            intro a ha t ht
            rw [List.mem_singleton] at ht
            subst ht
            exact hex a ha
          · intro t ht
            rw [List.mem_append, List.mem_singleton] at ht
            rcases ht with ht | ht
            · exact ⟨le_of_lt (h2 t ht), fun he => absurd he (by have := h2 t ht; omega)⟩
            · subst ht
              exact ⟨by dsimp only; omega, fun _ => rfl⟩

/-- C1: for every parameter set and every market series, a single
simulation run never has more than one position open at any bar index —
the trade log contains no two trades whose entry-to-exit index ranges
overlap (each trade exits strictly before the next one enters). -/
theorem C1_no_overlapping_trades (p : StrategyParams) (cash comm : ℚ) (bars : List Bar) :
    (run p cash comm bars).tradeLog.Pairwise
      (fun a b => a.exitIndex < b.entryIndex ∨ b.exitIndex < a.entryIndex) := by
  have h0 : ChainInv 0 (initState cash) := chainInv_init cash
  have h1 := runBars_preserve p comm ChainInv bars
    (fun j b' s' _ hP => next_chainInv p comm j b' s' hP) 0 (initState cash) h0
  rw [Nat.zero_add] at h1
  have h2 := finalize_chain comm bars _ h1
  have hlog : (run p cash comm bars).tradeLog =
      (finalize comm bars (runBars p comm 0 bars (initState cash))).log := rfl
  rw [hlog]
  exact h2.1.imp (fun hab => Or.inl hab)

theorem next_gapInv (p : StrategyParams) (comm : ℚ) (i : ℕ) (b : Bar)
    (s : SimState) (hhold : 0 < p.hold_period) (h : GapInv p.hold_period i s) :
    GapInv p.hold_period (i + 1) (SwingTradingStrategy.next p comm i b s) := by
  obtain ⟨h1, h2⟩ := h
  cases hpos : s.pos with
  | none =>
      rcases next_flat_cases p comm i b s hpos with ⟨sig, heq⟩ | heq
      · rw [heq]
        refine ⟨h1, ?_⟩
        intro info hinfo
        dsimp only at hinfo
        rw [hpos] at hinfo
        cases hinfo
      · rw [heq]
        refine ⟨h1, ?_⟩
        intro info hinfo
        dsimp only at hinfo
        rw [Option.some.injEq] at hinfo
        subst hinfo
        exact ⟨Nat.lt_succ_self i, by dsimp only; omega⟩
  | some info =>
      obtain ⟨hei, hbound⟩ := h2 info hpos
      rcases next_open_cases p comm i b s info hpos with ⟨price, reason, heq⟩ | ⟨heq, hfe⟩
      · rw [heq]
        unfold closePosition
        refine ⟨?_, ?_⟩
        · intro t ht
          rw [List.mem_append, List.mem_singleton] at ht
          rcases ht with ht | ht
          · exact h1 t ht
          · subst ht; dsimp only; omega
        · intro info' hinfo'
          cases hinfo'
      · rw [heq]
        refine ⟨h1, ?_⟩
        intro info' hinfo'
        rw [hpos, Option.some.injEq] at hinfo'
        subst hinfo'
        have hnf : ¬ p.hold_period ≤ i - info.entryBarIndex := fun hc => hfe (Or.inl hc)
        exact ⟨Nat.lt_succ_of_lt hei, by omega⟩

theorem finalize_gap (comm : ℚ) (bars : List Bar) (s : SimState)
    (hold : ℕ) (h : GapInv hold bars.length s) :
    ∀ t ∈ (finalize comm bars s).log, t.exitIndex - t.entryIndex ≤ hold := by
  obtain ⟨h1, h2⟩ := h
  unfold finalize
  cases hpos : s.pos with
  | none => exact h1
  | some info =>
      obtain ⟨hei, hbound⟩ := h2 info hpos
      cases hlast : bars.getLast? with
      | none => exact h1
      | some blast =>
          unfold closePosition
          intro t ht
          rw [List.mem_append, List.mem_singleton] at ht
          rcases ht with ht | ht
          · exact h1 t ht
          · subst ht; dsimp only; omega

/-- C2 (amended): for every trade of a run with a positive `hold_period`,
the exit bar index is at least the entry bar index and their difference
never exceeds `hold_period`; strictness of the inequality can fail only
for a position force-closed at series end on the very bar it was entered
(exit index = entry index = last bar index). -/
theorem C2_exit_after_entry_within_hold (p : StrategyParams) (cash comm : ℚ)
    (bars : List Bar) (hhold : 0 < p.hold_period) :
    ∀ t ∈ (run p cash comm bars).tradeLog,
      t.entryIndex ≤ t.exitIndex ∧
      t.exitIndex - t.entryIndex ≤ p.hold_period ∧
      (t.exitIndex = t.entryIndex → t.exitIndex = bars.length - 1) := by
  have hc0 : ChainInv 0 (initState cash) := chainInv_init cash
  have hc1 := runBars_preserve p comm ChainInv bars
    (fun j b' s' _ hP => next_chainInv p comm j b' s' hP) 0 (initState cash) hc0
  rw [Nat.zero_add] at hc1
  have hc2 := finalize_chain comm bars _ hc1
  have hg0 : GapInv p.hold_period 0 (initState cash) := by
    refine ⟨?_, ?_⟩ <;> simp [initState]
  have hg1 := runBars_preserve p comm (GapInv p.hold_period) bars
    (fun j b' s' _ hP => next_gapInv p comm j b' s' hhold hP) 0 (initState cash) hg0
  rw [Nat.zero_add] at hg1
  have hg2 := finalize_gap comm bars _ p.hold_period hg1
  intro t ht
  have hlog : (run p cash comm bars).tradeLog =
      (finalize comm bars (runBars p comm 0 bars (initState cash))).log := rfl
  rw [hlog] at ht
  exact ⟨(hc2.2 t ht).1, hg2 t ht, (hc2.2 t ht).2⟩

/-- C2 counterexample: with a zero entry delay and a single qualifying
bar, the position opens on the final bar and is force-closed at series
end on that same bar, so the trade log contains a trade whose exit index
is not strictly greater than its entry index. -/
theorem C2_counterexample :
    ((run cexParams 10000 (1 / 500) [wBar]).tradeLog.all
      (fun t => decide (t.entryIndex < t.exitIndex))) = false := by
  norm_num [run, runBars, SwingTradingStrategy.next, finalize, closePosition,
    initState, cexParams, wBar, List.getLast?]

/-- Witness for the amended C2 at a concrete run. -/
theorem C2_witness :
    0 < cexParams.hold_period ∧
    ((run cexParams 10000 (1 / 500) [wBar]).tradeLog.all
      (fun t => decide (t.entryIndex ≤ t.exitIndex ∧
        t.exitIndex - t.entryIndex ≤ cexParams.hold_period))) = true := by
  refine ⟨by norm_num [cexParams], ?_⟩
  have h := C2_exit_after_entry_within_hold cexParams 10000 (1 / 500) [wBar]
    (by norm_num [cexParams])
  rw [List.all_eq_true]
  intro t ht
  have ht2 := h t ht
  exact decide_eq_true ⟨ht2.1, ht2.2.1⟩

theorem sumPnL_append_single (l : List Trade) (t : Trade) :
    sumPnL (l ++ [t]) = sumPnL l + t.realizedPnL := by
  simp [sumPnL]

theorem next_cashInv (p : StrategyParams) (comm : ℚ) (i : ℕ) (b : Bar)
    (s : SimState) (start : ℚ) (h : CashInv start comm s) :
    CashInv start comm (SwingTradingStrategy.next p comm i b s) := by
  cases hpos : s.pos with
  | none =>
      rcases next_flat_cases p comm i b s hpos with ⟨sig, heq⟩ | heq
      · rw [heq]
        unfold CashInv at h ⊢
        dsimp only
        exact h
      · rw [heq]
        unfold CashInv at h ⊢
        rw [hpos] at h
        dsimp only
        rw [h]
        ring
  | some info =>
      rcases next_open_cases p comm i b s info hpos with ⟨price, reason, heq⟩ | ⟨heq, _⟩
      · rw [heq]
        unfold CashInv at h ⊢
        unfold closePosition
        rw [hpos] at h
        dsimp only
        rw [sumPnL_append_single, h]
        dsimp only
        ring
      · rw [heq]; exact h
  
theorem finalize_cash (start comm : ℚ) (bars : List Bar) (s : SimState)
    (hch : ChainInv bars.length s) (h : CashInv start comm s) :
    (finalize comm bars s).cash = start + sumPnL (finalize comm bars s).log := by
  unfold CashInv at h
  unfold finalize
  cases hpos : s.pos with
  | none =>
      rw [hpos] at h
      dsimp only
      rw [h]; ring
  | some info =>
      rw [hpos] at h
      cases hlast : bars.getLast? with
      | none =>
          exfalso
          have hnil : bars = [] := by
            cases bars with
            | nil => rfl
            | cons x xs => simp [List.getLast?] at hlast
          have := (hch.2.2.2 info hpos).1
          rw [hnil] at this
          simp at this
      | some blast =>
          unfold closePosition
          dsimp only
          rw [sumPnL_append_single, h]
          dsimp only
          ring

/-- C7: for every trial, the final equity of a run equals the starting
cash plus the sum of the realized P&L of every trade in its log, and the
objective score equals the total percentage return
`(finalEquity - startingCash) / startingCash * 100`. -/
theorem C7_equity_roundtrip (p : StrategyParams) (cash comm : ℚ) (bars : List Bar) :
    (run p cash comm bars).finalEquity =
      cash + sumPnL (run p cash comm bars).tradeLog ∧
    score cash (run p cash comm bars) =
      ((run p cash comm bars).finalEquity - cash) / cash * 100 := by
  constructor
  · have h0 : CashInv cash comm (initState cash) := by
      simp [CashInv, initState, sumPnL]
    have h1 := runBars_preserve p comm (fun _ s => CashInv cash comm s) bars
      (fun j b' s' _ hP => next_cashInv p comm j b' s' cash hP) 0 (initState cash) h0
    have hc0 : ChainInv 0 (initState cash) := chainInv_init cash
    have hc1 := runBars_preserve p comm ChainInv bars
      (fun j b' s' _ hP => next_chainInv p comm j b' s' hP) 0 (initState cash) hc0
    rw [Nat.zero_add] at hc1
    exact finalize_cash cash comm bars _ hc1 h1
  · rfl

/-- C6: if no bar of the series satisfies both entry conditions
(RSI below `RSI_thresh` and CCI below `CCI_thresh`), the run produces an
empty trade log and its score is 0 rather than an error. -/
theorem C6_no_qualifying_bar (p : StrategyParams) (cash comm : ℚ) (bars : List Bar)
    (h : ∀ b ∈ bars, ¬(b.rsi < p.RSI_thresh ∧ b.cci < p.CCI_thresh)) :
    (run p cash comm bars).tradeLog = [] ∧ score cash (run p cash comm bars) = 0 := by
  have h1 := runBars_preserve p comm (fun _ s' => s' = initState cash) bars
    (fun j b' s' hb hP => by
      subst hP
      unfold SwingTradingStrategy.next initState
      dsimp only
      rw [if_neg (h b' hb)])
    0 (initState cash) rfl
  have hfin : finalize comm bars (runBars p comm 0 bars (initState cash)) = initState cash := by
    rw [h1]; rfl
  constructor
  · show (finalize comm bars (runBars p comm 0 bars (initState cash))).log = []
    rw [hfin]; rfl
  · show ((finalize comm bars (runBars p comm 0 bars (initState cash))).cash - cash) / cash * 100 = 0
    rw [hfin]
    show (cash - cash) / cash * 100 = 0
    rw [sub_self, zero_div, zero_mul]

/-- Witness for C6 at a concrete non-qualifying series. -/
theorem C6_witness :
    ¬(wQuietBar.rsi < defaultParams.RSI_thresh ∧
      wQuietBar.cci < defaultParams.CCI_thresh) ∧
    (run defaultParams 10000 (1 / 500) [wQuietBar]).tradeLog = [] ∧
    score 10000 (run defaultParams 10000 (1 / 500) [wQuietBar]) = 0 := by
  have hq : ¬(wQuietBar.rsi < defaultParams.RSI_thresh ∧
      wQuietBar.cci < defaultParams.CCI_thresh) := by
    norm_num [wQuietBar, defaultParams]
  refine ⟨hq, C6_no_qualifying_bar defaultParams 10000 (1 / 500) [wQuietBar] ?_⟩
  intro b hb
  rw [List.mem_singleton] at hb
  subst hb
  exact hq

theorem entry_guard (c t : ℚ) (hc : 0 < c) (ht : 0 < t) :
    c * (9 / 10) < c ∧ c < c * (t + 1) := by
  constructor <;> nlinarith

theorem next_opens (p : StrategyParams) (comm : ℚ) (i : ℕ) (b : Bar)
    (s : SimState) (d : ℕ) (hpos : s.pos = none)
    (hsig : s.buy_signal_day = some d) (hdel : p.entry_delay ≤ i - d)
    (hc : 0 < b.close) (ht : 0 < p.tp_percent) :
    SwingTradingStrategy.next p comm i b s =
      { buy_signal_day := none
        pos := some { entryBarIndex := i, entryPrice := b.close,
                      stopLoss := b.close * (9 / 10),
                      takeProfit := b.close * (p.tp_percent + 1) }
        cash := s.cash - comm * b.close
        log := s.log } := by
  unfold SwingTradingStrategy.next
  rw [hpos]
  dsimp only
  rw [hsig]
  dsimp only
  rw [ite_self]
  dsimp only
  rw [if_pos hdel, if_pos (entry_guard b.close p.tp_percent hc ht)]

theorem next_awaits (p : StrategyParams) (comm : ℚ) (i : ℕ) (b : Bar)
    (s : SimState) (d : ℕ) (hpos : s.pos = none)
    (hsig : s.buy_signal_day = some d) (hnd : i - d < p.entry_delay) :
    SwingTradingStrategy.next p comm i b s = { s with buy_signal_day := some d } := by
  unfold SwingTradingStrategy.next
  rw [hpos]
  dsimp only
  rw [hsig]
  dsimp only
  rw [ite_self]
  dsimp only
  rw [if_neg (by omega : ¬ p.entry_delay ≤ i - d)]

theorem next_nonpos_close (p : StrategyParams) (comm : ℚ) (i : ℕ) (b : Bar)
    (s : SimState) (d : ℕ) (hpos : s.pos = none)
    (hsig : s.buy_signal_day = some d) (hc : b.close ≤ 0) :
    SwingTradingStrategy.next p comm i b s = { s with buy_signal_day := some d } := by
  unfold SwingTradingStrategy.next
  rw [hpos]
  dsimp only
  rw [hsig]
  dsimp only
  rw [ite_self]
  dsimp only
  by_cases hdel : p.entry_delay ≤ i - d
  · rw [if_pos hdel]
    have hng : ¬(b.close * (9 / 10) < b.close ∧ b.close < b.close * (p.tp_percent + 1)) := by
      intro hg
      nlinarith [hg.1]
    rw [if_neg hng]
  · rw [if_neg hdel]

/-- C3: whenever the engine opens a position at bar `i`, the entry price
equals `Close[i]`, the stop-loss equals `entryPrice * 0.9` and the
take-profit equals `entryPrice * (1 + tp_percent)`, with the entry
recorded at bar `i`. -/
theorem C3_entry_bracket (p : StrategyParams) (comm : ℚ) (i : ℕ) (b : Bar)
    (s : SimState) (info : PosInfo) (hflat : s.pos = none)
    (hopen : (SwingTradingStrategy.next p comm i b s).pos = some info) :
    info.entryBarIndex = i ∧ info.entryPrice = b.close ∧
    info.stopLoss = info.entryPrice * (9 / 10) ∧
    info.takeProfit = info.entryPrice * (1 + p.tp_percent) := by
  rcases next_flat_cases p comm i b s hflat with ⟨sig, heq⟩ | heq
  · rw [heq] at hopen
    dsimp only at hopen
    rw [hflat] at hopen
    cases hopen
  · rw [heq] at hopen
    dsimp only at hopen
    rw [Option.some.injEq] at hopen
    subst hopen
    refine ⟨rfl, rfl, rfl, ?_⟩
    dsimp only
    ring

/-- Witness for C3: a concrete entry at bar 5 after the signal at bar 0. -/
theorem C3_witness :
    awaitState.pos = none ∧
    (SwingTradingStrategy.next defaultParams (1 / 500) 5 wBar awaitState).pos =
      some wOpenInfo ∧
    (wOpenInfo.entryBarIndex = 5 ∧ wOpenInfo.entryPrice = wBar.close ∧
     wOpenInfo.stopLoss = wOpenInfo.entryPrice * (9 / 10) ∧
     wOpenInfo.takeProfit = wOpenInfo.entryPrice * (1 + defaultParams.tp_percent)) := by
  have h1 : awaitState.pos = none := rfl
  have h2 : (SwingTradingStrategy.next defaultParams (1 / 500) 5 wBar awaitState).pos =
      some wOpenInfo := by
    norm_num [SwingTradingStrategy.next, awaitState, wBar, defaultParams, wOpenInfo]
  exact ⟨h1, h2, C3_entry_bracket defaultParams (1 / 500) 5 wBar awaitState wOpenInfo h1 h2⟩

/-- C4: while a position is open at bar `i` and neither bracket is hit
intrabar, the engine exits exactly when the hold period has elapsed or
the MACD histogram is below the threshold; such a forced exit executes
at `Close[i]`, and `HoldPeriodExpired` takes priority over
`MacdReversal`. -/
theorem C4_forced_exit (p : StrategyParams) (comm : ℚ) (i : ℕ) (b : Bar)
    (s : SimState) (info : PosInfo) (hpos : s.pos = some info)
    (hsl : ¬ b.low ≤ info.stopLoss) (htp : ¬ info.takeProfit ≤ b.high) :
    ((p.hold_period ≤ i - info.entryBarIndex ∨ b.macdHist < p.macd_hist_thresh) →
      (SwingTradingStrategy.next p comm i b s).pos = none ∧
      (SwingTradingStrategy.next p comm i b s).log = s.log ++
        [{ entryIndex := info.entryBarIndex, entryPrice := info.entryPrice,
           exitIndex := i, exitPrice := b.close,
           reason := if p.hold_period ≤ i - info.entryBarIndex
                     then ExitReason.HoldPeriodExpired else ExitReason.MacdReversal,
           realizedPnL := (b.close - info.entryPrice) -
             comm * info.entryPrice - comm * b.close }]) ∧
    (¬(p.hold_period ≤ i - info.entryBarIndex ∨ b.macdHist < p.macd_hist_thresh) →
      SwingTradingStrategy.next p comm i b s = s) := by
  unfold SwingTradingStrategy.next
  rw [hpos]
  dsimp only
  rw [if_neg hsl, if_neg htp]
  constructor
  · intro hfe
    rw [if_pos hfe]
    exact ⟨rfl, rfl⟩
  · intro hfe
    rw [if_neg hfe]

/-- Witness for C4: a concrete forced exit when the hold period elapses. -/
theorem C4_witness :
    (openState.pos = some oInfo ∧ ¬ wHoldBar.low ≤ oInfo.stopLoss ∧
     ¬ oInfo.takeProfit ≤ wHoldBar.high ∧
     (cexParams.hold_period ≤ 5 - oInfo.entryBarIndex ∨
       wHoldBar.macdHist < cexParams.macd_hist_thresh)) ∧
    (SwingTradingStrategy.next cexParams (1 / 500) 5 wHoldBar openState).pos = none ∧
    (SwingTradingStrategy.next cexParams (1 / 500) 5 wHoldBar openState).log =
      openState.log ++
        [{ entryIndex := oInfo.entryBarIndex, entryPrice := oInfo.entryPrice,
           exitIndex := 5, exitPrice := wHoldBar.close,
           reason := if cexParams.hold_period ≤ 5 - oInfo.entryBarIndex
                     then ExitReason.HoldPeriodExpired else ExitReason.MacdReversal,
           realizedPnL := (wHoldBar.close - oInfo.entryPrice) -
             (1 / 500) * oInfo.entryPrice - (1 / 500) * wHoldBar.close }] := by
  have h1 : openState.pos = some oInfo := rfl
  have h2 : ¬ wHoldBar.low ≤ oInfo.stopLoss := by norm_num [wHoldBar, oInfo]
  have h3 : ¬ oInfo.takeProfit ≤ wHoldBar.high := by norm_num [wHoldBar, oInfo]
  have h4 : cexParams.hold_period ≤ 5 - oInfo.entryBarIndex ∨
      wHoldBar.macdHist < cexParams.macd_hist_thresh := by
    left
    norm_num [cexParams, oInfo]
  exact ⟨⟨h1, h2, h3, h4⟩,
    (C4_forced_exit cexParams (1 / 500) 5 wHoldBar openState oInfo h1 h2 h3).1 h4⟩

/-- C5: once a signal bar is recorded, later bars before the delay
elapses never reset the record — whatever their RSI and CCI values — and
the position still opens at bar `signalBarIndex + entry_delay` (given a
positive close and a positive `tp_percent` there). -/
theorem C5_signal_locked (p : StrategyParams) (comm : ℚ) (s : SimState) (d : ℕ)
    (i : ℕ) (b b2 : Bar)
    (hflat : s.pos = none) (hsig : s.buy_signal_day = some d)
    (hd : d ≤ i) (hlt : i - d < p.entry_delay)
    (hc : 0 < b2.close) (ht : 0 < p.tp_percent) :
    ((SwingTradingStrategy.next p comm i b s).buy_signal_day = some d ∧
     (SwingTradingStrategy.next p comm i b s).pos = none) ∧
    (SwingTradingStrategy.next p comm (d + p.entry_delay) b2 s).pos =
      some { entryBarIndex := d + p.entry_delay, entryPrice := b2.close,
             stopLoss := b2.close * (9 / 10),
             takeProfit := b2.close * (p.tp_percent + 1) } := by
  constructor
  · rw [next_awaits p comm i b s d hflat hsig hlt]
    exact ⟨rfl, hflat⟩
  · rw [next_opens p comm (d + p.entry_delay) b2 s d hflat hsig (by omega) hc ht]

/-- Witness for C5: a qualifying bar at index 3 does not reset the
signal recorded at bar 0, and entry still happens at bar 5. -/
theorem C5_witness :
    (awaitState.pos = none ∧ awaitState.buy_signal_day = some 0 ∧
     (0 : ℕ) ≤ 3 ∧ 3 - 0 < defaultParams.entry_delay ∧
     (0 : ℚ) < wBar.close ∧ (0 : ℚ) < defaultParams.tp_percent) ∧
    ((SwingTradingStrategy.next defaultParams (1 / 500) 3 wBar awaitState).buy_signal_day =
        some 0 ∧
     (SwingTradingStrategy.next defaultParams (1 / 500) 3 wBar awaitState).pos = none) ∧
    (SwingTradingStrategy.next defaultParams (1 / 500)
        (0 + defaultParams.entry_delay) wBar awaitState).pos =
      some { entryBarIndex := 0 + defaultParams.entry_delay, entryPrice := wBar.close,
             stopLoss := wBar.close * (9 / 10),
             takeProfit := wBar.close * (defaultParams.tp_percent + 1) } := by
  have h1 : awaitState.pos = none := rfl
  have h2 : awaitState.buy_signal_day = some 0 := rfl
  have h4 : 3 - 0 < defaultParams.entry_delay := by norm_num [defaultParams]
  have h5 : (0 : ℚ) < wBar.close := by norm_num [wBar]
  have h6 : (0 : ℚ) < defaultParams.tp_percent := by norm_num [defaultParams]
  exact ⟨⟨h1, h2, by omega, h4, h5, h6⟩,
    C5_signal_locked defaultParams (1 / 500) awaitState 0 3 wBar wBar h1 h2 (by omega) h4 h5 h6⟩

/-- C8: for every entry attempt with a positive close price and a
positive `tp_percent`, the sanity guard `stopLoss < price < takeProfit`
holds, so the remain-awaiting branch is unreachable and the position
opens once the delay has elapsed. -/
theorem C8_sanity_guard (p : StrategyParams) (comm : ℚ) (i : ℕ) (b : Bar)
    (s : SimState) (d : ℕ)
    (hflat : s.pos = none) (hsig : s.buy_signal_day = some d)
    (hdel : p.entry_delay ≤ i - d)
    (hc : 0 < b.close) (ht : 0 < p.tp_percent) :
    b.close * (9 / 10) < b.close ∧ b.close < b.close * (p.tp_percent + 1) ∧
    (SwingTradingStrategy.next p comm i b s).pos =
      some { entryBarIndex := i, entryPrice := b.close,
             stopLoss := b.close * (9 / 10),
             takeProfit := b.close * (p.tp_percent + 1) } := by
  obtain ⟨g1, g2⟩ := entry_guard b.close p.tp_percent hc ht
  refine ⟨g1, g2, ?_⟩
  rw [next_opens p comm i b s d hflat hsig hdel hc ht]

/-- Witness for C8: a concrete entry at bar 7 with the guard holding. -/
theorem C8_witness :
    (awaitState.pos = none ∧ awaitState.buy_signal_day = some 0 ∧
     defaultParams.entry_delay ≤ 7 - 0 ∧
     (0 : ℚ) < wBar.close ∧ (0 : ℚ) < defaultParams.tp_percent) ∧
    (wBar.close * (9 / 10) < wBar.close ∧
     wBar.close < wBar.close * (defaultParams.tp_percent + 1) ∧
     (SwingTradingStrategy.next defaultParams (1 / 500) 7 wBar awaitState).pos =
       some { entryBarIndex := 7, entryPrice := wBar.close,
              stopLoss := wBar.close * (9 / 10),
              takeProfit := wBar.close * (defaultParams.tp_percent + 1) }) := by
  have h1 : awaitState.pos = none := rfl
  have h2 : awaitState.buy_signal_day = some 0 := rfl
  have h3 : defaultParams.entry_delay ≤ 7 - 0 := by norm_num [defaultParams]
  have h4 : (0 : ℚ) < wBar.close := by norm_num [wBar]
  have h5 : (0 : ℚ) < defaultParams.tp_percent := by norm_num [defaultParams]
  exact ⟨⟨h1, h2, h3, h4, h5⟩,
    C8_sanity_guard defaultParams (1 / 500) 7 wBar awaitState 0 h1 h2 h3 h4 h5⟩

/-- C10: if the close at the bar where the entry delay has elapsed is
non-positive (as a logarithmic transform can produce), the guard fails,
no position opens at that bar, the recorded signal is kept, and entry
happens at a later bar with a positive close. -/
theorem C10_nonpositive_close_defers (p : StrategyParams) (comm : ℚ) (i j : ℕ)
    (b b2 : Bar) (s : SimState) (d : ℕ)
    (hflat : s.pos = none) (hsig : s.buy_signal_day = some d)
    (hc : b.close ≤ 0)
    (hdel : p.entry_delay ≤ j - d) (hc2 : 0 < b2.close) (ht : 0 < p.tp_percent) :
    (SwingTradingStrategy.next p comm i b s).pos = none ∧
    (SwingTradingStrategy.next p comm i b s).buy_signal_day = some d ∧
    (SwingTradingStrategy.next p comm j b2 (SwingTradingStrategy.next p comm i b s)).pos =
      some { entryBarIndex := j, entryPrice := b2.close,
             stopLoss := b2.close * (9 / 10),
             takeProfit := b2.close * (p.tp_percent + 1) } := by
  have heq := next_nonpos_close p comm i b s d hflat hsig hc
  refine ⟨by rw [heq]; exact hflat, by rw [heq], ?_⟩
  rw [heq]
  rw [next_opens p comm j b2 { s with buy_signal_day := some d } d hflat rfl hdel hc2 ht]

/-- Witness for C10: a negative close at bar 9 defers the entry, which
then happens at bar 12 on a positive close. -/
theorem C10_witness :
    (awaitState.pos = none ∧ awaitState.buy_signal_day = some 0 ∧
     wNegBar.close ≤ 0 ∧ defaultParams.entry_delay ≤ 12 - 0 ∧
     (0 : ℚ) < wBar.close ∧ (0 : ℚ) < defaultParams.tp_percent) ∧
    ((SwingTradingStrategy.next defaultParams (1 / 500) 9 wNegBar awaitState).pos = none ∧
     (SwingTradingStrategy.next defaultParams (1 / 500) 9 wNegBar awaitState).buy_signal_day =
       some 0 ∧
     (SwingTradingStrategy.next defaultParams (1 / 500) 12 wBar
        (SwingTradingStrategy.next defaultParams (1 / 500) 9 wNegBar awaitState)).pos =
       some { entryBarIndex := 12, entryPrice := wBar.close,
              stopLoss := wBar.close * (9 / 10),
              takeProfit := wBar.close * (defaultParams.tp_percent + 1) }) := by
  have h1 : awaitState.pos = none := rfl
  have h2 : awaitState.buy_signal_day = some 0 := rfl
  have h3 : wNegBar.close ≤ 0 := by norm_num [wNegBar]
  have h4 : defaultParams.entry_delay ≤ 12 - 0 := by norm_num [defaultParams]
  have h5 : (0 : ℚ) < wBar.close := by norm_num [wBar]
  have h6 : (0 : ℚ) < defaultParams.tp_percent := by norm_num [defaultParams]
  exact ⟨⟨h1, h2, h3, h4, h5, h6⟩,
    C10_nonpositive_close_defers defaultParams (1 / 500) 9 12 wNegBar wBar awaitState 0
      h1 h2 h3 h4 h5 h6⟩

/-- C9: in exhaustive mode (candidate space no larger than `maxTries`),
the optimizer search is a pure function of the series, the ranges and
the budget — two invocations on the same inputs return the identical
best result — and with at least one candidate in every range the search
never returns an empty result. -/
theorem C9_exhaustive_search (cash comm : ℚ) (bars : List Bar)
    (hs : List ℕ) (rs cs ms tps : List ℚ) (ds : List ℕ) (maxTries : ℕ)
    (hh : hs ≠ []) (hr : rs ≠ []) (hcc : cs ≠ []) (hm : ms ≠ [])
    (htp : tps ≠ []) (hdd : ds ≠ [])
    (hfit : (productParams hs rs cs ms tps ds).length ≤ maxTries) :
    search cash comm bars (productParams hs rs cs ms tps ds) maxTries =
      search cash comm bars (productParams hs rs cs ms tps ds) maxTries ∧
    (search cash comm bars (productParams hs rs cs ms tps ds) maxTries).isSome = true := by
  refine ⟨rfl, ?_⟩
  obtain ⟨h0, hh0⟩ := List.exists_mem_of_ne_nil hs hh
  obtain ⟨r0, hr0⟩ := List.exists_mem_of_ne_nil rs hr
  obtain ⟨c0, hc0⟩ := List.exists_mem_of_ne_nil cs hcc
  obtain ⟨m0, hm0⟩ := List.exists_mem_of_ne_nil ms hm
  obtain ⟨t0, ht0⟩ := List.exists_mem_of_ne_nil tps htp
  obtain ⟨d0, hd0⟩ := List.exists_mem_of_ne_nil ds hdd
  have hmem : StrategyParams.mk h0 r0 c0 m0 t0 d0 ∈
      productParams hs rs cs ms tps ds := by
    unfold productParams
    refine List.mem_flatMap.2 ⟨h0, hh0, ?_⟩
    refine List.mem_flatMap.2 ⟨r0, hr0, ?_⟩
    refine List.mem_flatMap.2 ⟨c0, hc0, ?_⟩
    refine List.mem_flatMap.2 ⟨m0, hm0, ?_⟩
    refine List.mem_flatMap.2 ⟨t0, ht0, ?_⟩
    exact List.mem_map.2 ⟨d0, hd0, rfl⟩
  have hne : productParams hs rs cs ms tps ds ≠ [] := List.ne_nil_of_mem hmem
  unfold search
  rw [if_pos hfit]
  obtain ⟨c, csl, hp⟩ : ∃ c csl, productParams hs rs cs ms tps ds = c :: csl := by
    cases hq : productParams hs rs cs ms tps ds with
    | nil => exact absurd hq hne
    | cons c csl => exact ⟨c, csl, rfl⟩
  rw [hp]
  rfl

/-- Witness for C9 at concrete singleton ranges. -/
theorem C9_witness :
    ([16] ≠ ([] : List ℕ) ∧ [(30 : ℚ)] ≠ [] ∧ [(-100 : ℚ)] ≠ [] ∧
     [(0 : ℚ)] ≠ [] ∧ [(3 / 10 : ℚ)] ≠ [] ∧ [5] ≠ ([] : List ℕ) ∧
     (productParams [16] [30] [-100] [0] [3 / 10] [5]).length ≤ 10000) ∧
    (search 10000 (1 / 500) [wQuietBar]
      (productParams [16] [30] [-100] [0] [3 / 10] [5]) 10000).isSome = true := by
  have h7 : (productParams [16] [30] [-100] [0] [3 / 10] [5]).length ≤ 10000 := by
    norm_num [productParams]
  refine ⟨⟨by simp, by simp, by simp, by simp, by simp, by simp, h7⟩, ?_⟩
  exact (C9_exhaustive_search 10000 (1 / 500) [wQuietBar] [16] [30] [-100] [0] [3 / 10] [5]
    10000 (by simp) (by simp) (by simp) (by simp) (by simp) (by simp) h7).2
